import Mathlib

/-!
Formal model of the BrainBolt adaptive quiz engine.

The definitions below are a shallow embedding of the TypeScript source:
the question bank and hash helper (src/lib/questions.ts), the keyed store
(src/lib/store.ts and its Redis-backed revision), the rate limiter
(src/lib/rateLimit.ts), the adaptive engine with its two competing
revisions of processAnswer and getNextQuestion (src/lib/adaptive.ts),
and the answer-submission route handlers (POST /api/quiz/answer and
POST /api/v1/quiz/answer).

JavaScript numbers that the program only ever assigns clamped
non-negative integer values (difficulty, confidence, streak, maxStreak,
stateVersion, timestamps) are modelled as Nat; scores, which are real
valued, are modelled as Rat; the client-supplied selectedIndex, which the
code explicitly tests for negativity, is modelled as Int.  Mutable maps
are modelled as association lists with explicit functional update.  The
external Python IRT scoring service is modelled as unavailable, which is
the documented fallback path: the engine then scores with calculateScore.
-/

namespace BrainBolt

/-! ## SHA-256 (model of the Node crypto primitive used by the source) -/

/-- Truncate to a 32-bit word. -/
def w32 (n : ℕ) : ℕ := n % 4294967296

/-- Truncate to a byte. -/
def w8 (n : ℕ) : ℕ := n % 256

/-- Rotate a 32-bit word right by `n` bits. -/
def rotr32 (x n : ℕ) : ℕ := w32 ((x >>> n) ||| (x <<< (32 - n)))

/-- Bitwise complement of a 32-bit word. -/
def notW (x : ℕ) : ℕ := 4294967295 ^^^ x

/-- SHA-256 round constants (FIPS 180-4), written in decimal. -/
def shaK : List ℕ :=
  [1116352408, 1899447441, 3049323471, 3921009573, 961987163, 1508970993,
   2453635748, 2870763221, 3624381080, 310598401, 607225278, 1426881987,
   1925078388, 2162078206, 2614888103, 3248222580, 3835390401, 4022224774,
   264347078, 604807628, 770255983, 1249150122, 1555081692, 1996064986,
   2554220882, 2821834349, 2952996808, 3210313671, 3336571891, 3584528711,
   113926993, 338241895, 666307205, 773529912, 1294757372, 1396182291,
   1695183700, 1986661051, 2177026350, 2456956037, 2730485921, 2820302411,
   3259730800, 3345764771, 3516065817, 3600352804, 4094571909, 275423344,
   430227734, 506948616, 659060556, 883997877, 958139571, 1322822218,
   1537002063, 1747873779, 1955562222, 2024104815, 2227730452, 2361852424,
   2428436474, 2756734187, 3204031479, 3329325298]

/-- SHA-256 initial hash state (FIPS 180-4), written in decimal. -/
def shaH0 : List ℕ :=
  [1779033703, 3144134277, 1013904242, 2773480762,
   1359893119, 2600822924, 528734635, 1541459225]

def bigSigma0 (x : ℕ) : ℕ := rotr32 x 2 ^^^ rotr32 x 13 ^^^ rotr32 x 22

def bigSigma1 (x : ℕ) : ℕ := rotr32 x 6 ^^^ rotr32 x 11 ^^^ rotr32 x 25

def smallSigma0 (x : ℕ) : ℕ := rotr32 x 7 ^^^ rotr32 x 18 ^^^ (x >>> 3)

def smallSigma1 (x : ℕ) : ℕ := rotr32 x 17 ^^^ rotr32 x 19 ^^^ (x >>> 10)

def chF (x y z : ℕ) : ℕ := (x &&& y) ^^^ (notW x &&& z)

def majF (x y z : ℕ) : ℕ := (x &&& y) ^^^ (x &&& z) ^^^ (y &&& z)

/-- Big-endian 8-byte encoding of a number (used for the length field). -/
def be8 (n : ℕ) : List ℕ :=
  [w8 (n >>> 56), w8 (n >>> 48), w8 (n >>> 40), w8 (n >>> 32),
   w8 (n >>> 24), w8 (n >>> 16), w8 (n >>> 8), w8 n]

/-- Standard SHA-256 padding: a 128 byte, zeros up to 56 mod 64, then
the 8-byte bit length. -/
def padMessage (msg : List ℕ) : List ℕ :=
  let len := msg.length
  let zeros := (119 - len % 64) % 64
  msg ++ 128 :: List.replicate zeros 0 ++ be8 (len * 8)

/-- Split a byte list into 64-byte blocks; the fuel argument (any bound on
the number of blocks, here the length itself) keeps the recursion
structural so the kernel can evaluate it. -/
def chunksAux : ℕ → List ℕ → List (List ℕ)
  | 0, _ => []
  | _, [] => []
  | fuel + 1, l => l.take 64 :: chunksAux fuel (l.drop 64)

/-- Split a byte list into 64-byte blocks. -/
def chunks64 (l : List ℕ) : List (List ℕ) := chunksAux l.length l

/-- Assemble bytes into big-endian 32-bit words. -/
def bytesToWords : List ℕ → List ℕ
  | a :: b :: c :: d :: rest => (((a <<< 8 ||| b) <<< 8 ||| c) <<< 8 ||| d) :: bytesToWords rest
  | _ => []

/-- Extend the 16-word block `n` more schedule words. -/
def extendW (ws : List ℕ) : ℕ → List ℕ
  | 0 => ws
  | n + 1 =>
    let i := ws.length
    let wNew := w32 (smallSigma1 (ws.getD (i - 2) 0) + ws.getD (i - 7) 0 +
                     smallSigma0 (ws.getD (i - 15) 0) + ws.getD (i - 16) 0)
    extendW (ws ++ [wNew]) n

/-- The 64-word message schedule of one block. -/
def schedule (block : List ℕ) : List ℕ := extendW (bytesToWords block) 48

/-- One compression round on the 8-word working state. -/
def roundFn : List ℕ → ℕ → ℕ → List ℕ
  | [a, b, c, d, e, f, g, h], k, w =>
    let t1 := w32 (h + bigSigma1 e + chF e f g + k + w)
    let t2 := w32 (bigSigma0 a + majF a b c)
    [w32 (t1 + t2), a, b, c, w32 (d + t1), e, f, g]
  | s, _, _ => s

/-- Compress one 64-byte block into the hash state. -/
def compressBlock (h : List ℕ) (block : List ℕ) : List ℕ :=
  let final := (shaK.zip (schedule block)).foldl (fun s kw => roundFn s kw.1 kw.2) h
  (h.zip final).map (fun p => w32 (p.1 + p.2))

/-- SHA-256 digest of a byte list, as 32 bytes. -/
def sha256 (msg : List ℕ) : List ℕ :=
  let final := (chunks64 (padMessage msg)).foldl compressBlock shaH0
  final.foldr
    (fun w acc => w8 (w >>> 24) :: w8 (w >>> 16) :: w8 (w >>> 8) :: w8 w :: acc) []

/-- Lowercase hexadecimal digit. -/
def hexDigit (n : ℕ) : Char := if n < 10 then Char.ofNat (48 + n) else Char.ofNat (87 + n)

/-- Hex encoding of a byte list. -/
def bytesToHex (bs : List ℕ) : String :=
  String.mk (bs.foldr (fun b acc => hexDigit (b / 16) :: hexDigit (b % 16) :: acc) [])

/-- First 16 hex characters of the SHA-256 digest of an ASCII string,
as computed by createHash in questions.ts and the async processAnswer. -/
def sha256hex16 (s : String) : String :=
  (bytesToHex (sha256 (s.data.map Char.toNat))).take 16

/-- hashCorrectIndex from questions.ts: 16-hex-char SHA-256 of the
decimal string of the index. -/
def hashCorrectIndex (index : ℕ) : String := sha256hex16 (Nat.repr index)

/-! ## Keyed stores (the module-level Maps of store.ts, modelled as
association lists with functional update) -/

/-- Lookup in a keyed store. -/
def findS {α : Type} : List (String × α) → String → Option α
  | [], _ => none
  | (k, v) :: m, key => if k = key then some v else findS m key

/-- Overwrite update of a keyed store, replacing in place like Map.set. -/
def setS {α : Type} : List (String × α) → String → α → List (String × α)
  | [], key, v => [(key, v)]
  | (k, w) :: m, key, v => if k = key then (key, v) :: m else (k, w) :: setS m key v

theorem findS_setS_self {α : Type} (m : List (String × α)) (k : String) (v : α) :
    findS (setS m k v) k = some v := by
  induction m with
  | nil => simp [findS, setS]
  | cons p m ih =>
    obtain ⟨pk, pv⟩ := p
    by_cases hpk : pk = k
    · simp [setS, findS, hpk]
    · simp [setS, findS, hpk, ih]

theorem findS_setS_ne {α : Type} (m : List (String × α)) (k k' : String) (v : α)
    (h : k ≠ k') : findS (setS m k v) k' = findS m k' := by
  induction m with
  | nil => simp [findS, setS, fun e => h e]
  | cons p m ih =>
    obtain ⟨pk, pv⟩ := p
    by_cases hpk : pk = k
    · subst hpk
      simp [setS, findS, h]
    · simp only [setS, if_neg hpk, findS]
      by_cases hk' : pk = k'
      · simp [hk']
      · simp [hk', ih]

theorem setS_setS_self {α : Type} (m : List (String × α)) (k : String) (v v' : α) :
    setS (setS m k v) k v' = setS m k v' := by
  induction m with
  | nil => simp [setS]
  | cons p m ih =>
    obtain ⟨pk, pv⟩ := p
    by_cases hpk : pk = k
    · simp [setS, hpk]
    · simp [setS, hpk, ih]

/-! ## Data model (store.ts and its Redis revision) -/

/-- Adaptive per-user state.  Fields follow UserState in store.ts; the
stateVersion, lastAnswerAt and sessionId fields exist only in the Redis
revision and are ignored by the synchronous revision of the engine. -/
structure UserState where
  userId : String
  difficulty : ℕ
  streak : ℕ
  maxStreak : ℕ
  totalScore : ℚ
  confidence : ℕ
  lastQuestionId : Option String
  answeredIds : List String
  recentResults : List Bool
  createdAt : ℕ
  stateVersion : ℕ
  lastAnswerAt : ℕ
  deriving DecidableEq, Repr

/-- Public projection of the user state (toPublicUserState). -/
structure PublicUserState where
  difficulty : ℕ
  streak : ℕ
  maxStreak : ℕ
  totalScore : ℚ
  confidence : ℕ
  deriving DecidableEq, Repr

/-- Answer result returned by processAnswer.  The stateVersion field is
present (some) only in the async revision of the engine, mirroring the
two payload shapes; irtData is always absent because the external IRT
service is modelled as unavailable. -/
structure AnswerResponse where
  correct : Bool
  correctIndex : ℕ
  scoreDelta : ℚ
  userState : PublicUserState
  stateVersion : Option ℕ
  deriving DecidableEq, Repr

/-- Catalog entry (Question in questions.ts). -/
structure Question where
  id : String
  text : String
  choices : List String
  correctIndex : ℕ
  difficulty : ℕ
  category : String
  correctAnswerHash : String
  deriving DecidableEq, Repr

/-- getQuestionById from questions.ts. -/
def getQuestionById (catalog : List Question) (id : String) : Option Question :=
  catalog.find? (fun q => q.id = id)

/-- toPublicUserState from store.ts. -/
def toPublicUserState (u : UserState) : PublicUserState :=
  { difficulty := u.difficulty
    streak := u.streak
    maxStreak := u.maxStreak
    totalScore := u.totalScore
    confidence := u.confidence }

/-- The rolling window capacity RECENT_RESULTS_MAX_LENGTH. -/
def RECENT_RESULTS_MAX_LENGTH : ℕ := 10

/-- The while loop of pushRecentResult: shift from the front while the
window is longer than the capacity. -/
def trimWindow : List Bool → List Bool
  | [] => []
  | b :: rs => if (b :: rs).length > RECENT_RESULTS_MAX_LENGTH then trimWindow rs else b :: rs

/-- pushRecentResult from store.ts: append, then shift down to capacity. -/
def pushRecentResult (rs : List Bool) (b : Bool) : List Bool := trimWindow (rs ++ [b])

/-- markQuestionAnswered from store.ts: record the id in the answered set
and remember it as the last question. -/
def markQuestionAnswered (u : UserState) (questionId : String) : UserState :=
  { u with answeredIds := if questionId ∈ u.answeredIds then u.answeredIds
                          else questionId :: u.answeredIds
           lastQuestionId := some questionId }

/-- Fresh user created on first reference (getOrCreateUser). -/
def initialUser (userId : String) (now : ℕ) : UserState :=
  { userId := userId
    difficulty := 1
    streak := 0
    maxStreak := 0
    totalScore := 0
    confidence := 5
    lastQuestionId := none
    answeredIds := []
    recentResults := []
    createdAt := now
    stateVersion := 0
    lastAnswerAt := now }

/-- getOrCreateUser at store level: read the state, creating and saving a
fresh default state on first reference. -/
def getOrCreateUserW (users : List (String × UserState)) (userId : String) (now : ℕ) :
    UserState × List (String × UserState) :=
  match findS users userId with
  | some u => (u, users)
  | none =>
    let u := initialUser userId now
    (u, setS users userId u)

/-! ## Adaptive engine (src/lib/adaptive.ts, both revisions) -/

/-- rollingAccuracy: fraction of correct results in the rolling window,
floored at 0.1; an empty window counts as perfect accuracy. -/
def rollingAccuracy (results : List Bool) : ℚ :=
  if results.length = 0 then 1
  else max (1 / 10) ((results.countP (fun b => b) : ℚ) / (results.length : ℚ))

/-- calculateScore: base times streak multiplier times rolling accuracy. -/
def calculateScore (u : UserState) : ℚ :=
  let base : ℚ := (u.difficulty : ℚ) * 10
  let multiplier : ℚ := min 4 (1 + (u.streak : ℚ) * (1 / 4))
  let accuracy := rollingAccuracy u.recentResults
  base * multiplier * accuracy

/-- The correct-answer branch of processAnswer (identical in both source
revisions): streak and high-water mark, hysteresis raise, push the
outcome before scoring, then score.  Returns the updated user and the
score delta. -/
def applyCorrect (u : UserState) : UserState × ℚ :=
  let u := { u with streak := u.streak + 1 }
  let u := { u with maxStreak := max u.maxStreak u.streak }
  let u := { u with confidence := min 10 (u.confidence + 1) }
  let u := if u.confidence ≥ 7 then
             { u with difficulty := min 10 (u.difficulty + 1), confidence := 5 }
           else u
  let u := { u with recentResults := pushRecentResult u.recentResults true }
  let scoreDelta := calculateScore u
  ({ u with totalScore := u.totalScore + scoreDelta }, scoreDelta)

/-- The incorrect-answer branch of processAnswer: hard streak reset,
hysteresis drop, push the outcome, zero score. -/
def applyIncorrect (u : UserState) : UserState × ℚ :=
  let u := { u with streak := 0 }
  let u := { u with confidence := max 0 (u.confidence - 2) }
  let u := if u.confidence ≤ 3 then
             { u with difficulty := max 1 (u.difficulty - 1), confidence := 5 }
           else u
  let u := { u with recentResults := pushRecentResult u.recentResults false }
  (u, 0)

/-- Per-answer state transition: the if correct / else branches of
processAnswer. -/
def applyAnswer (u : UserState) (correct : Bool) : UserState × ℚ :=
  if correct then applyCorrect u else applyIncorrect u

/-- Correctness verdict of the synchronous revision of processAnswer:
direct index comparison. -/
def verdictSync (q : Question) (selectedIndex : ℤ) : Bool :=
  selectedIndex = (q.correctIndex : ℤ)

/-- Correctness verdict of the asynchronous revision of processAnswer:
the 16-hex SHA-256 of the stringified selected index must equal the
stored correctAnswerHash.  String(selectedIndex) is the decimal string;
the branch is only reached after the selectedIndex ≥ 0 check. -/
def verdictAsync (q : Question) (selectedIndex : ℤ) : Bool :=
  hashCorrectIndex selectedIndex.toNat = q.correctAnswerHash

/-- Validation failures of processAnswer (the two throw sites). -/
inductive AdaptiveError where
  | itemNotFound (questionId : String)
  | invalidChoice (selectedIndex : ℤ)
  deriving DecidableEq, Repr

/-- The synchronous revision of processAnswer, acting on the users store:
validate, judge by index comparison, apply the hysteresis transition,
mark the question answered, persist. -/
def processAnswerSync (catalog : List Question) (users : List (String × UserState))
    (userId questionId : String) (selectedIndex : ℤ) (now : ℕ) :
    Except AdaptiveError (AnswerResponse × List (String × UserState)) :=
  match getQuestionById catalog questionId with
  | none => .error (.itemNotFound questionId)
  | some question =>
    if selectedIndex < 0 ∨ (question.choices.length : ℤ) ≤ selectedIndex then
      .error (.invalidChoice selectedIndex)
    else
      let gc := getOrCreateUserW users userId now
      let correct := verdictSync question selectedIndex
      let p := applyAnswer gc.1 correct
      let u := markQuestionAnswered p.1 questionId
      .ok ({ correct := correct
             correctIndex := question.correctIndex
             scoreDelta := p.2
             userState := toPublicUserState u
             stateVersion := none },
           setS gc.2 userId u)

/-- The per-user effect of the asynchronous revision of processAnswer
after the verdict: hysteresis transition, mark answered, bump the
optimistic version, refresh the activity timestamp. -/
def answerUpdate (u : UserState) (questionId : String) (correct : Bool) (now : ℕ) :
    UserState × ℚ :=
  let p := applyAnswer u correct
  let u := markQuestionAnswered p.1 questionId
  let u := { u with stateVersion := u.stateVersion + 1, lastAnswerAt := now }
  (u, p.2)

/-- The asynchronous revision of processAnswer (Redis-backed store, IRT
scoring service unavailable so the calculateScore fallback is used):
validate, judge by hash comparison, apply the transition with version
bump, persist. -/
def processAnswerAsy (catalog : List Question) (users : List (String × UserState))
    (userId questionId : String) (selectedIndex : ℤ) (now : ℕ) :
    Except AdaptiveError (AnswerResponse × List (String × UserState)) :=
  match getQuestionById catalog questionId with
  | none => .error (.itemNotFound questionId)
  | some question =>
    if selectedIndex < 0 ∨ (question.choices.length : ℤ) ≤ selectedIndex then
      .error (.invalidChoice selectedIndex)
    else
      let gc := getOrCreateUserW users userId now
      let correct := verdictAsync question selectedIndex
      let p := answerUpdate gc.1 questionId correct now
      .ok ({ correct := correct
             correctIndex := question.correctIndex
             scoreDelta := p.2
             userState := toPublicUserState p.1
             stateVersion := some p.1.stateVersion },
           setS gc.2 userId p.1)

/-- Inactivity threshold of getNextQuestion (30 minutes). -/
def INACTIVITY_THRESHOLD_MS : ℕ := 30 * 60 * 1000

/-- Whether the inactivity-decay block of getNextQuestion fires: a truthy
lastAnswerAt whose distance to now exceeds the threshold. -/
def decayFires (u : UserState) (now : ℕ) : Prop :=
  u.lastAnswerAt ≠ 0 ∧ now - u.lastAnswerAt > INACTIVITY_THRESHOLD_MS

instance (u : UserState) (now : ℕ) : Decidable (decayFires u now) := by
  unfold decayFires; infer_instance

/-- The inactivity-decay block of the async getNextQuestion: when it
fires, a positive streak is halved (integer floor) and confidence
decremented by one (floored at 0), and lastAnswerAt is refreshed. -/
def inactivityDecay (u : UserState) (now : ℕ) : UserState :=
  if decayFires u now then
    let u := if u.streak > 0 then
               { u with streak := u.streak / 2, confidence := max 0 (u.confidence - 1) }
             else u
    { u with lastAnswerAt := now }
  else u

/-- Question projection returned to the caller (never carries the
correct-answer reference). -/
structure QuestionPublic where
  id : String
  text : String
  choices : List String
  difficulty : ℕ
  category : String
  deriving DecidableEq, Repr

/-- User-state projection of NextQuestionResult. -/
structure NextUserState where
  difficulty : ℕ
  streak : ℕ
  totalScore : ℚ
  maxStreak : ℕ
  deriving DecidableEq, Repr

/-- NextQuestionResult of the async revision. -/
structure NextQuestionResult where
  question : QuestionPublic
  userState : NextUserState
  stateVersion : ℕ
  deriving DecidableEq, Repr

/-- Absolute difference of two naturals, for the difficulty band test. -/
def natAbsDiff (a b : ℕ) : ℕ := max a b - min a b

/-- Candidate filter of getNextQuestion: unanswered questions within the
given difficulty band. -/
def filterCandidates (catalog : List Question) (u : UserState) (band : ℕ) : List Question :=
  catalog.filter (fun q => natAbsDiff q.difficulty u.difficulty ≤ band ∧ q.id ∉ u.answeredIds)

/-- The async getNextQuestion.  The two Math.random draws are passed in
as parameters: rExact models random() < 0.7 and rIdx seeds the uniform
index draw.  Store reads and writes follow the Redis value semantics of
the source: mutations become visible only at an explicit save. -/
def getNextQuestionW (catalog : List Question) (users : List (String × UserState))
    (userId : String) (now : ℕ) (rExact : Bool) (rIdx : ℕ) :
    Option NextQuestionResult × List (String × UserState) :=
  let gc := getOrCreateUserW users userId now
  let u0 := gc.1
  let decayed := decayFires u0 now
  let u1 := inactivityDecay u0 now
  let users := if decayed then setS gc.2 userId u1 else gc.2
  let c1 := filterCandidates catalog u1 1
  let c2 := if c1 = [] then
              catalog.filter (fun q => q.difficulty = u1.difficulty ∧ q.id ∉ u1.answeredIds)
            else c1
  let u2 := if c2 = [] then { u1 with answeredIds := [] } else u1
  let c3 := if c2 = [] then filterCandidates catalog u2 2 else c2
  match c3 with
  | [] => (none, users)
  | q0 :: _ =>
    let candidates := c3
    let exactMatch := candidates.filter (fun q => q.difficulty = u2.difficulty)
    let selected := if exactMatch.length > 0 ∧ rExact then
                      exactMatch.getD (rIdx % exactMatch.length) q0
                    else
                      candidates.getD (rIdx % candidates.length) q0
    let u3 := { u2 with lastQuestionId := some selected.id }
    (some { question := { id := selected.id
                          text := selected.text
                          choices := selected.choices
                          difficulty := selected.difficulty
                          category := selected.category }
            userState := { difficulty := u3.difficulty
                           streak := u3.streak
                           totalScore := u3.totalScore
                           maxStreak := u3.maxStreak }
            stateVersion := u3.stateVersion },
     setS users userId u3)

/-! ## Rate limiter (src/lib/rateLimit.ts) -/

/-- Per-identity fixed window: request count and window start. -/
structure RateLimitWindow where
  count : ℕ
  windowStart : ℕ
  deriving DecidableEq, Repr

/-- Result of an admission attempt. -/
structure RateLimitResult where
  allowed : Bool
  remaining : ℕ
  retryAfter : ℕ
  deriving DecidableEq, Repr

/-- Window capacity MAX_REQUESTS. -/
def MAX_REQUESTS : ℕ := 30

/-- Window length WINDOW_MS (60 seconds). -/
def WINDOW_MS : ℕ := 60 * 1000

/-- checkRateLimit: reset an absent or expired window to count 1,
increment a live window while under capacity, otherwise reject with the
whole seconds remaining until the window resets (rounded up). -/
def checkRateLimit (windows : List (String × RateLimitWindow)) (userId : String) (now : ℕ) :
    RateLimitResult × List (String × RateLimitWindow) :=
  match findS windows userId with
  | none =>
    ({ allowed := true, remaining := MAX_REQUESTS - 1, retryAfter := 0 },
     setS windows userId { count := 1, windowStart := now })
  | some entry =>
    if now - entry.windowStart ≥ WINDOW_MS then
      ({ allowed := true, remaining := MAX_REQUESTS - 1, retryAfter := 0 },
       setS windows userId { count := 1, windowStart := now })
    else if entry.count < MAX_REQUESTS then
      ({ allowed := true, remaining := MAX_REQUESTS - (entry.count + 1), retryAfter := 0 },
       setS windows userId { entry with count := entry.count + 1 })
    else
      ({ allowed := false, remaining := 0,
         retryAfter := (WINDOW_MS - (now - entry.windowStart) + 999) / 1000 },
       windows)

/-- Run a sequence of admission attempts at the given times. -/
def runRateAttempts (windows : List (String × RateLimitWindow)) (userId : String) :
    List ℕ → List RateLimitResult × List (String × RateLimitWindow)
  | [] => ([], windows)
  | t :: ts =>
    let p := checkRateLimit windows userId t
    let q := runRateAttempts p.2 userId ts
    (p.1 :: q.1, q.2)

/-! ## Idempotency cache (store.ts) -/

/-- Retention window IDEMPOTENCY_TTL_MS (5 minutes). -/
def IDEMPOTENCY_TTL_MS : ℕ := 5 * 60 * 1000

/-- checkIdempotency: return the cached response if present and not
expired; an expired entry is deleted and treated as absent. -/
def checkIdempotency (cache : List (String × (AnswerResponse × ℕ))) (key : String) (now : ℕ) :
    Option AnswerResponse × List (String × (AnswerResponse × ℕ)) :=
  match findS cache key with
  | none => (none, cache)
  | some entry =>
    if now - entry.2 > IDEMPOTENCY_TTL_MS then
      (none, cache.filter (fun p => p.1 ≠ key))
    else
      (some entry.1, cache)

/-- Lazy sweep of expired idempotency entries. -/
def cleanupExpiredIdempotencyKeys (cache : List (String × (AnswerResponse × ℕ))) (now : ℕ) :
    List (String × (AnswerResponse × ℕ)) :=
  cache.filter (fun p => ¬ now - p.2.2 > IDEMPOTENCY_TTL_MS)

/-- recordIdempotency: store the response with its creation time, then
sweep expired entries. -/
def recordIdempotency (cache : List (String × (AnswerResponse × ℕ))) (key : String)
    (response : AnswerResponse) (now : ℕ) : List (String × (AnswerResponse × ℕ)) :=
  cleanupExpiredIdempotencyKeys (setS cache key (response, now)) now

/-! ## Answer-submission routes -/

/-- Combined mutable state behind the routes: user store, idempotency
cache, rate windows. -/
structure World where
  users : List (String × UserState)
  idem : List (String × (AnswerResponse × ℕ))
  rate : List (String × RateLimitWindow)
  deriving DecidableEq, Repr

/-- Responses of the answer routes, by status: 400 invalid index, 404
question not found, 429 rate limited, 409 version conflict (v1 route
only), 200 with the answer payload and the idempotent-replay flag. -/
inductive RouteResponse where
  | invalidIndex (selectedIndex : ℤ)
  | notFound (questionId : String)
  | rateLimited (retryAfter : ℕ)
  | versionConflict (currentVersion : ℕ)
  | ok (body : AnswerResponse) (idempotent : Bool) (remaining : ℕ)
  deriving DecidableEq, Repr

/-- POST /api/quiz/answer (the synchronous revision): validate the index
and question, admit through the rate limiter, consult the idempotency
cache, process on a miss and record the result.  JSON parsing and the
missing-field checks are outside the model: the parameters arrive typed. -/
def POSTanswer (catalog : List Question) (w : World) (userId questionId : String)
    (selectedIndex : ℤ) (idempotencyKey : String) (now : ℕ) : RouteResponse × World :=
  if selectedIndex < 0 then (.invalidIndex selectedIndex, w)
  else
    match getQuestionById catalog questionId with
    | none => (.notFound questionId, w)
    | some question =>
      if (question.choices.length : ℤ) ≤ selectedIndex then (.invalidIndex selectedIndex, w)
      else
        let rl := checkRateLimit w.rate userId now
        let w := { w with rate := rl.2 }
        if !rl.1.allowed then (.rateLimited rl.1.retryAfter, w)
        else
          let ci := checkIdempotency w.idem idempotencyKey now
          let w := { w with idem := ci.2 }
          match ci.1 with
          | some response => (.ok response true rl.1.remaining, w)
          | none =>
            match processAnswerSync catalog w.users userId questionId selectedIndex now with
            | .error (.itemNotFound s) => (.notFound s, w)
            | .error (.invalidChoice i) => (.invalidIndex i, w)
            | .ok (response, users) =>
              (.ok response false rl.1.remaining,
               { w with users := users
                        idem := recordIdempotency w.idem idempotencyKey response now })

/-- POST /api/v1/quiz/answer (the asynchronous revision): same pipeline
plus the optimistic state-version check between the idempotency lookup
and processing.  The leaderboard-rank and session fields of the fresh
payload are outside the model, as is the log-only session check. -/
def POSTanswerV1 (catalog : List Question) (w : World) (userId questionId : String)
    (selectedIndex : ℤ) (idempotencyKey : String) (stateVersion : Option ℕ) (now : ℕ) :
    RouteResponse × World :=
  if selectedIndex < 0 then (.invalidIndex selectedIndex, w)
  else
    match getQuestionById catalog questionId with
    | none => (.notFound questionId, w)
    | some question =>
      if (question.choices.length : ℤ) ≤ selectedIndex then (.invalidIndex selectedIndex, w)
      else
        let rl := checkRateLimit w.rate userId now
        let w := { w with rate := rl.2 }
        if !rl.1.allowed then (.rateLimited rl.1.retryAfter, w)
        else
          let ci := checkIdempotency w.idem idempotencyKey now
          let w := { w with idem := ci.2 }
          match ci.1 with
          | some response => (.ok response true rl.1.remaining, w)
          | none =>
            let conflict : Option ℕ :=
              match stateVersion, findS w.users userId with
              | some v, some u => if u.stateVersion ≠ v then some u.stateVersion else none
              | _, _ => none
            match conflict with
            | some currentVersion => (.versionConflict currentVersion, w)
            | none =>
              match processAnswerAsy catalog w.users userId questionId selectedIndex now with
              | .error (.itemNotFound s) => (.notFound s, w)
              | .error (.invalidChoice i) => (.invalidIndex i, w)
              | .ok (response, users) =>
                (.ok response false rl.1.remaining,
                 { w with users := users
                          idem := recordIdempotency w.idem idempotencyKey response now })

/-! ## Answer sequences and engine operations -/

/-- Fold a list of correct/incorrect outcomes through the per-answer
transition. -/
def runAnswers (u : UserState) (answers : List Bool) : UserState :=
  answers.foldl (fun u b => (applyAnswer u b).1) u

/-- Alternating outcome sequence of the given length, starting with
`first`. -/
def altSeq (first : Bool) : ℕ → List Bool
  | 0 => []
  | n + 1 => first :: altSeq (!first) n

/-- The per-user effect of getNextQuestionW, as it lands in the store:
inactivity decay, then the candidate cascade with its answered-set clear,
then the last-question bookkeeping of the selection.  On the exhausted
path only the decayed state is persisted. -/
def nextQuestionUser (catalog : List Question) (u : UserState) (now : ℕ)
    (rExact : Bool) (rIdx : ℕ) : UserState :=
  let u1 := inactivityDecay u now
  let c1 := filterCandidates catalog u1 1
  let c2 := if c1 = [] then
              catalog.filter (fun q => q.difficulty = u1.difficulty ∧ q.id ∉ u1.answeredIds)
            else c1
  let u2 := if c2 = [] then { u1 with answeredIds := [] } else u1
  let c3 := if c2 = [] then filterCandidates catalog u2 2 else c2
  match c3 with
  | [] => u1
  | q0 :: _ =>
    let exactMatch := c3.filter (fun q => q.difficulty = u2.difficulty)
    let selected := if exactMatch.length > 0 ∧ rExact then
                      exactMatch.getD (rIdx % exactMatch.length) q0
                    else
                      c3.getD (rIdx % c3.length) q0
    { u2 with lastQuestionId := some selected.id }

/-- One operation on a user's adaptive state: answer processing through
the async engine, or a next-item selection (with its inactivity decay). -/
inductive EngineOp where
  | submit (questionId : String) (correct : Bool) (now : ℕ)
  | next (catalog : List Question) (now : ℕ) (rExact : Bool) (rIdx : ℕ)
  deriving Repr

/-- Apply one engine operation to a user state. -/
def applyOp (u : UserState) : EngineOp → UserState
  | .submit questionId correct now => (answerUpdate u questionId correct now).1
  | .next catalog now rExact rIdx => nextQuestionUser catalog u now rExact rIdx

/-- Apply a sequence of engine operations. -/
def runOps (u : UserState) : List EngineOp → UserState
  | [] => u
  | op :: ops => runOps (applyOp u op) ops

/-- The streak values observed after each operation of a run. -/
def streakTrace (u : UserState) : List EngineOp → List ℕ
  | [] => []
  | op :: ops => (applyOp u op).streak :: streakTrace (applyOp u op) ops

/-- The documented invariants of the adaptive state. -/
def StateInv (u : UserState) : Prop :=
  u.confidence ≤ 10 ∧ 1 ≤ u.difficulty ∧ u.difficulty ≤ 10 ∧
  u.streak ≤ u.maxStreak ∧ u.recentResults.length ≤ 10

/-! ## Sample catalog entry (questions.ts), used by concrete runs -/

/-- Question q001 of the bank. -/
def q001 : Question :=
  { id := "q001"
    text := "In React, what is the purpose of the useCallback hook?"
    choices := ["To memoize a value that is expensive to compute",
                "To memoize a function reference between renders",
                "To run side effects after render",
                "To manage component state"]
    correctIndex := 1
    difficulty := 5
    category := "Frontend/React/Next.js"
    correctAnswerHash := hashCorrectIndex 1 }

/-! ## Window lemmas -/

theorem trimWindow_of_le (l : List Bool) (h : l.length ≤ RECENT_RESULTS_MAX_LENGTH) :
    trimWindow l = l := by
  cases l with
  | nil => rfl
  | cons b rs =>
    rw [trimWindow, if_neg]
    omega

theorem trimWindow_length (l : List Bool) :
    (trimWindow l).length = min l.length RECENT_RESULTS_MAX_LENGTH := by
  induction l with
  | nil => simp [trimWindow, RECENT_RESULTS_MAX_LENGTH]
  | cons b rs ih =>
    by_cases h : (b :: rs).length > RECENT_RESULTS_MAX_LENGTH
    · simp only [trimWindow, if_pos h, ih]
      simp only [List.length_cons] at h ⊢
      omega
    · simp only [trimWindow, if_neg h]
      simp only [List.length_cons] at h ⊢
      omega

theorem trimWindow_mem (l : List Bool) (x : Bool) (h : x ∈ trimWindow l) : x ∈ l := by
  induction l with
  | nil => simpa [trimWindow] using h
  | cons b rs ih =>
    by_cases hl : (b :: rs).length > RECENT_RESULTS_MAX_LENGTH
    · simp only [trimWindow, if_pos hl] at h
      exact List.mem_cons_of_mem b (ih h)
    · simpa only [trimWindow, if_neg hl] using h

theorem pushRecentResult_length (rs : List Bool) (b : Bool) :
    (pushRecentResult rs b).length = min (rs.length + 1) RECENT_RESULTS_MAX_LENGTH := by
  simp [pushRecentResult, trimWindow_length]

theorem pushRecentResult_ne_nil (rs : List Bool) (b : Bool) : pushRecentResult rs b ≠ [] := by
  intro h
  have hlen := pushRecentResult_length rs b
  rw [h] at hlen
  rw [RECENT_RESULTS_MAX_LENGTH] at hlen
  simp only [List.length_nil] at hlen
  omega

/-- C2 helper: the fields of the correct-answer transition, phrased as
final values. -/
theorem applyCorrect_fields (u : UserState) :
    (applyCorrect u).1.streak = u.streak + 1 ∧
    (applyCorrect u).1.maxStreak = max u.maxStreak (u.streak + 1) ∧
    (7 ≤ min 10 (u.confidence + 1) →
      (applyCorrect u).1.difficulty = min 10 (u.difficulty + 1) ∧
      (applyCorrect u).1.confidence = 5) ∧
    (min 10 (u.confidence + 1) < 7 →
      (applyCorrect u).1.difficulty = u.difficulty ∧
      (applyCorrect u).1.confidence = min 10 (u.confidence + 1)) := by
  refine ⟨?_, ?_, fun h => ?_, fun h => ?_⟩
  · simp only [applyCorrect, ge_iff_le]
    split <;> rfl
  · simp only [applyCorrect, ge_iff_le]
    split <;> rfl
  · simp only [applyCorrect, ge_iff_le]
    split
    · exact ⟨rfl, rfl⟩
    · rename_i hC
      exact absurd h hC
  · simp only [applyCorrect, ge_iff_le]
    split
    · rename_i hC
      exact absurd hC (not_le.mpr h)
    · exact ⟨rfl, rfl⟩

/-- C2 helper: the fields of the incorrect-answer transition. -/
theorem applyIncorrect_fields (u : UserState) :
    (applyIncorrect u).1.streak = 0 ∧
    (applyIncorrect u).2 = 0 ∧
    (max 0 (u.confidence - 2) ≤ 3 →
      (applyIncorrect u).1.difficulty = max 1 (u.difficulty - 1) ∧
      (applyIncorrect u).1.confidence = 5) ∧
    (3 < max 0 (u.confidence - 2) →
      (applyIncorrect u).1.difficulty = u.difficulty ∧
      (applyIncorrect u).1.confidence = max 0 (u.confidence - 2)) := by
  refine ⟨?_, ?_, fun h => ?_, fun h => ?_⟩
  · simp only [applyIncorrect]
    split <;> rfl
  · rfl
  · simp only [applyIncorrect]
    split
    · exact ⟨rfl, rfl⟩
    · rename_i hC
      exact absurd h hC
  · simp only [applyIncorrect]
    split
    · rename_i hC
      exact absurd hC (not_le.mpr h)
    · exact ⟨rfl, rfl⟩

/-- C2: for every state with confidence in [0,10] and difficulty in
[1,10], a correct answer increments the streak, raises the high-water
mark, bumps confidence by one clamped at 10, and on reaching confidence
at least 7 raises difficulty clamped at 10 and recenters confidence to 5;
an incorrect answer zeroes the streak, drops confidence by two clamped at
0, on reaching confidence at most 3 lowers difficulty clamped at 1 and
recenters confidence to 5, and scores zero. -/
theorem processAnswer_transition_C2 (u : UserState)
    (hc : u.confidence ≤ 10) (hd1 : 1 ≤ u.difficulty) (hd2 : u.difficulty ≤ 10) :
    (applyAnswer u true).1.streak = u.streak + 1 ∧
    (applyAnswer u true).1.maxStreak = max u.maxStreak (u.streak + 1) ∧
    (7 ≤ min 10 (u.confidence + 1) →
      (applyAnswer u true).1.difficulty = min 10 (u.difficulty + 1) ∧
      (applyAnswer u true).1.confidence = 5) ∧
    (min 10 (u.confidence + 1) < 7 →
      (applyAnswer u true).1.difficulty = u.difficulty ∧
      (applyAnswer u true).1.confidence = min 10 (u.confidence + 1)) ∧
    (applyAnswer u false).1.streak = 0 ∧
    (max 0 (u.confidence - 2) ≤ 3 →
      (applyAnswer u false).1.difficulty = max 1 (u.difficulty - 1) ∧
      (applyAnswer u false).1.confidence = 5) ∧
    (3 < max 0 (u.confidence - 2) →
      (applyAnswer u false).1.difficulty = u.difficulty ∧
      (applyAnswer u false).1.confidence = max 0 (u.confidence - 2)) ∧
    (applyAnswer u false).2 = 0 := by
  have hcor := applyCorrect_fields u
  have hinc := applyIncorrect_fields u
  have ht : applyAnswer u true = applyCorrect u := rfl
  have hf : applyAnswer u false = applyIncorrect u := rfl
  rw [ht, hf]
  exact ⟨hcor.1, hcor.2.1, hcor.2.2.1, hcor.2.2.2, hinc.1, hinc.2.2.1, hinc.2.2.2, hinc.2.1⟩

/-- C2 witness: the transition equations evaluated at the fresh state. -/
theorem processAnswer_transition_C2_witness :
    (applyAnswer (initialUser "alice" 0) true).1.streak = 0 + 1 ∧
    (applyAnswer (initialUser "alice" 0) true).1.maxStreak = max 0 (0 + 1) ∧
    (7 ≤ min 10 (5 + 1) →
      (applyAnswer (initialUser "alice" 0) true).1.difficulty = min 10 (1 + 1) ∧
      (applyAnswer (initialUser "alice" 0) true).1.confidence = 5) ∧
    (min 10 (5 + 1) < 7 →
      (applyAnswer (initialUser "alice" 0) true).1.difficulty = 1 ∧
      (applyAnswer (initialUser "alice" 0) true).1.confidence = min 10 (5 + 1)) ∧
    (applyAnswer (initialUser "alice" 0) false).1.streak = 0 ∧
    (max 0 (5 - 2) ≤ 3 →
      (applyAnswer (initialUser "alice" 0) false).1.difficulty = max 1 (1 - 1) ∧
      (applyAnswer (initialUser "alice" 0) false).1.confidence = 5) ∧
    (3 < max 0 (5 - 2) →
      (applyAnswer (initialUser "alice" 0) false).1.difficulty = 1 ∧
      (applyAnswer (initialUser "alice" 0) false).1.confidence = max 0 (5 - 2)) ∧
    (applyAnswer (initialUser "alice" 0) false).2 = 0 :=
  processAnswer_transition_C2 (initialUser "alice" 0) (by decide) (by decide) (by decide)

/-! ## Scoring lemmas -/

theorem rollingAccuracy_of_ne_nil (l : List Bool) (h : l ≠ []) :
    rollingAccuracy l =
      max (1 / 10) ((l.countP (fun b => b) : ℚ) / (l.length : ℚ)) := by
  rw [rollingAccuracy, if_neg]
  exact fun hl => h (List.length_eq_zero.mp hl)

theorem rollingAccuracy_nonneg (l : List Bool) : 0 ≤ rollingAccuracy l := by
  rw [rollingAccuracy]
  split
  · norm_num
  · exact le_trans (by norm_num) (le_max_left _ _)

theorem calculateScore_nonneg (u : UserState) : 0 ≤ calculateScore u := by
  rw [calculateScore]
  have hb : (0 : ℚ) ≤ (u.difficulty : ℚ) * 10 := by positivity
  have hm : (0 : ℚ) ≤ min 4 (1 + (u.streak : ℚ) * (1 / 4)) := by
    apply le_min (by norm_num)
    positivity
  exact mul_nonneg (mul_nonneg hb hm) (rollingAccuracy_nonneg _)

theorem rollingAccuracy_all_true (l : List Bool) (hne : l ≠ []) (h : ∀ x ∈ l, x = true) :
    rollingAccuracy l = 1 := by
  rw [rollingAccuracy_of_ne_nil l hne]
  have hcount : l.countP (fun b => b) = l.length :=
    List.countP_eq_length.mpr (fun a ha => by simp [h a ha])
  rw [hcount, div_self, max_eq_right] <;> norm_num
  intro hlen
  exact hne hlen

theorem streak_multiplier_capped (s : ℕ) (h : 12 ≤ s) :
    min (4 : ℚ) (1 + ((s + 1 : ℕ) : ℚ) * (1 / 4)) = 4 := by
  apply min_eq_left
  have : (12 : ℚ) ≤ (s : ℚ) := by exact_mod_cast h
  push_cast
  linarith

/-- C3: on a correct answer the outcome is appended before scoring and
the score delta equals the documented formula evaluated on the
post-transition difficulty, streak and window; the delta is never
negative (and is zero on an incorrect answer); a fresh first correct
answer scores exactly 25/2, and a capped correct answer at difficulty 10
with streak at least 12 and an all-correct window scores exactly 400. -/
theorem score_formula_C3 (u : UserState) (hd1 : 1 ≤ u.difficulty) (hd2 : u.difficulty ≤ 10) :
    ((applyAnswer u true).1.recentResults = pushRecentResult u.recentResults true) ∧
    ((applyAnswer u true).2 =
      ((applyAnswer u true).1.difficulty : ℚ) * 10 *
        min 4 (1 + ((applyAnswer u true).1.streak : ℚ) * (1 / 4)) *
        max (1 / 10) (((applyAnswer u true).1.recentResults.countP (fun b => b) : ℚ) /
          ((applyAnswer u true).1.recentResults.length : ℚ))) ∧
    (0 ≤ (applyAnswer u true).2) ∧
    ((applyAnswer u false).2 = 0) ∧
    (u.difficulty = 1 → u.confidence = 5 → u.streak = 0 → u.recentResults = [] →
      (applyAnswer u true).2 = 25 / 2) ∧
    (u.difficulty = 10 → 12 ≤ u.streak → (∀ b ∈ u.recentResults, b = true) →
      (applyAnswer u true).2 = 400) := by
  have ht : applyAnswer u true = applyCorrect u := rfl
  have hf : applyAnswer u false = applyIncorrect u := rfl
  rw [ht, hf]
  refine ⟨?_, ?_, ?_, rfl, fun h1 h2 h3 h4 => ?_, fun h1 h2 h3 => ?_⟩
  · simp only [applyCorrect]
    split <;> rfl
  · simp only [applyCorrect, calculateScore]
    split <;>
      simp only [rollingAccuracy_of_ne_nil _ (pushRecentResult_ne_nil _ _)]
  · simp only [applyCorrect]
    split <;> exact calculateScore_nonneg _
  · simp only [applyCorrect, h2, h3]
    rw [if_neg (by norm_num)]
    simp only [calculateScore, h1, h4]
    rw [rollingAccuracy_all_true _ (by simp [pushRecentResult, trimWindow, RECENT_RESULTS_MAX_LENGTH])
          (by simp [pushRecentResult, trimWindow, RECENT_RESULTS_MAX_LENGTH])]
    norm_num
  · have hall : ∀ x ∈ pushRecentResult u.recentResults true, x = true := by
      intro x hx
      have := trimWindow_mem _ x hx
      rcases List.mem_append.mp this with hl | hr
      · exact h3 x hl
      · simpa using hr
    have hacc := rollingAccuracy_all_true _ (pushRecentResult_ne_nil u.recentResults true) hall
    simp only [applyCorrect, h1]
    split <;>
    · simp only [calculateScore, hacc]
      rw [streak_multiplier_capped u.streak h2]
      norm_num

/-- A state at difficulty 10 with a 12-streak and an all-correct window,
used as a concrete capped-score input. -/
def cappedUser : UserState :=
  { initialUser "dave" 0 with
    difficulty := 10
    streak := 12
    recentResults := List.replicate 10 true }

/-- C3 witness: the fresh first correct answer scores 25/2 and an
incorrect answer scores 0, and the capped state scores 400. -/
theorem score_formula_C3_witness :
    (applyAnswer (initialUser "carol" 0) true).2 = 25 / 2 ∧
    (applyAnswer (initialUser "carol" 0) false).2 = 0 ∧
    (applyAnswer cappedUser true).2 = 400 :=
  ⟨(score_formula_C3 (initialUser "carol" 0) (by decide) (by decide)).2.2.2.2.1
      rfl rfl rfl rfl,
   (score_formula_C3 (initialUser "carol" 0) (by decide) (by decide)).2.2.2.1,
   (score_formula_C3 cappedUser (by decide) (by decide)).2.2.2.2.2
      rfl (by decide) (by decide)⟩

/-! ## Alternating sequences (hysteresis band) -/

/-- Invariant carried along an alternating run: before a correct answer
the confidence sits at 4 or 5, before an incorrect one at 5 or 6, and
the difficulty stays within [1, d]. -/
def AltInv (u : UserState) (next : Bool) (d : ℕ) : Prop :=
  (next = true → u.confidence = 4 ∨ u.confidence = 5) ∧
  (next = false → u.confidence = 5 ∨ u.confidence = 6) ∧
  1 ≤ u.difficulty ∧ u.difficulty ≤ d

theorem altInv_step (u : UserState) (next : Bool) (d : ℕ) (h : AltInv u next d) :
    AltInv (applyAnswer u next).1 (!next) d := by
  obtain ⟨ht, hf, hd1, hd2⟩ := h
  cases next with
  | true =>
    have ht' := applyCorrect_fields u
    rcases ht rfl with hc | hc <;>
    · have hlt : min 10 (u.confidence + 1) < 7 := by rw [hc]; decide
      obtain ⟨hdiff, hconf⟩ := ht'.2.2.2 hlt
      have he : applyAnswer u true = applyCorrect u := rfl
      rw [he]
      refine ⟨fun hx => by simp at hx, fun _ => ?_, ?_, ?_⟩
      · rw [hconf, hc]
        simp
      · rw [hdiff]; exact hd1
      · rw [hdiff]; exact hd2
  | false =>
    have hf' := applyIncorrect_fields u
    have he : applyAnswer u false = applyIncorrect u := rfl
    rw [he]
    rcases hf rfl with hc | hc
    · have hle : max 0 (u.confidence - 2) ≤ 3 := by rw [hc]; decide
      obtain ⟨hdiff, hconf⟩ := hf'.2.2.1 hle
      refine ⟨fun _ => ?_, fun hx => by simp at hx, ?_, ?_⟩
      · rw [hconf]; right; rfl
      · rw [hdiff]; omega
      · rw [hdiff]; omega
    · have hgt : 3 < max 0 (u.confidence - 2) := by rw [hc]; decide
      obtain ⟨hdiff, hconf⟩ := hf'.2.2.2 hgt
      refine ⟨fun _ => ?_, fun hx => by simp at hx, ?_, ?_⟩
      · rw [hconf, hc]; left; rfl
      · rw [hdiff]; exact hd1
      · rw [hdiff]; exact hd2

theorem altInv_run (d : ℕ) (n : ℕ) :
    ∀ (u : UserState) (first : Bool), AltInv u first d →
      1 ≤ (runAnswers u (altSeq first n)).difficulty ∧
      (runAnswers u (altSeq first n)).difficulty ≤ d := by
  induction n with
  | zero =>
    intro u first h
    exact ⟨h.2.2.1, h.2.2.2⟩
  | succ n ih =>
    intro u first h
    have hstep := altInv_step u first d h
    have hrun : runAnswers u (altSeq first (n + 1)) =
        runAnswers (applyAnswer u first).1 (altSeq (!first) n) := rfl
    rw [hrun]
    exact ih (applyAnswer u first).1 (!first) hstep

/-- C1 counterexample: from confidence 5 and difficulty 2, the
alternating sequence correct, incorrect, correct, incorrect drops the
difficulty to 1, so the difficulty does not stay equal to 2. -/
theorem hysteresis_alternation_C1_counterexample :
    (runAnswers { initialUser "alice" 0 with difficulty := 2 } (altSeq true 4)).difficulty = 1 ∧
    ¬ (runAnswers { initialUser "alice" 0 with difficulty := 2 }
        (altSeq true 4)).difficulty = 2 := by
  constructor
  · decide
  · decide

/-- C1 (amended): from confidence 5 and difficulty d in [1,10], any
alternating correct/incorrect run keeps the difficulty within [1, d]
(it can only fall, never rise); in particular for d = 1 the difficulty
never changes. -/
theorem hysteresis_alternation_C1 (u : UserState) (d : ℕ) (hd1 : 1 ≤ d) (hd2 : d ≤ 10)
    (hc : u.confidence = 5) (hdd : u.difficulty = d) (first : Bool) (n : ℕ) :
    1 ≤ (runAnswers u (altSeq first n)).difficulty ∧
    (runAnswers u (altSeq first n)).difficulty ≤ d ∧
    (d = 1 → (runAnswers u (altSeq first n)).difficulty = 1) := by
  have hinv : AltInv u first d := by
    refine ⟨fun _ => Or.inr hc, fun _ => Or.inl hc, ?_, ?_⟩
    · rw [hdd]; exact hd1
    · rw [hdd]
  obtain ⟨h1, h2⟩ := altInv_run d n u first hinv
  exact ⟨h1, h2, fun hdeq => by omega⟩

/-- C1 witness: at difficulty 1 an alternating run of length 5 leaves
the difficulty at 1. -/
theorem hysteresis_alternation_C1_witness :
    1 ≤ (runAnswers (initialUser "erin" 0) (altSeq true 5)).difficulty ∧
    (runAnswers (initialUser "erin" 0) (altSeq true 5)).difficulty ≤ 1 ∧
    (1 = 1 → (runAnswers (initialUser "erin" 0) (altSeq true 5)).difficulty = 1) :=
  hysteresis_alternation_C1 (initialUser "erin" 0) 1 (by decide) (by decide) rfl rfl true 5

/-! ## State invariants over operation sequences -/

/-- Agreement of two states on the five invariant-bearing fields. -/
def FieldsEq (v u : UserState) : Prop :=
  v.confidence = u.confidence ∧ v.difficulty = u.difficulty ∧ v.streak = u.streak ∧
  v.maxStreak = u.maxStreak ∧ v.recentResults = u.recentResults

theorem stateInv_congr (u v : UserState) (h5 : FieldsEq v u) (h : StateInv u) : StateInv v := by
  obtain ⟨e1, e2, e3, e4, e5⟩ := h5
  rw [StateInv, e1, e2, e3, e4, e5]
  exact h

theorem applyCorrect_recent (u : UserState) :
    (applyCorrect u).1.recentResults = pushRecentResult u.recentResults true := by
  simp only [applyCorrect]
  split <;> rfl

theorem applyIncorrect_misc (u : UserState) :
    (applyIncorrect u).1.maxStreak = u.maxStreak ∧
    (applyIncorrect u).1.recentResults = pushRecentResult u.recentResults false := by
  simp only [applyIncorrect]
  split <;> exact ⟨rfl, rfl⟩

theorem applyAnswer_inv (u : UserState) (correct : Bool) (h : StateInv u) :
    StateInv (applyAnswer u correct).1 ∧
    (applyAnswer u correct).1.maxStreak = max u.maxStreak (applyAnswer u correct).1.streak := by
  obtain ⟨hc, hd1, hd2, hsm, hrec⟩ := h
  cases correct with
  | true =>
    have hfe : applyAnswer u true = applyCorrect u := rfl
    rw [hfe]
    have hf := applyCorrect_fields u
    have hrc := applyCorrect_recent u
    have hlen : (applyCorrect u).1.recentResults.length ≤ 10 := by
      rw [hrc, pushRecentResult_length, RECENT_RESULTS_MAX_LENGTH]
      omega
    have h1 := hf.1
    have h2 := hf.2.1
    by_cases hcond : 7 ≤ min 10 (u.confidence + 1)
    · obtain ⟨hdiff, hconf⟩ := hf.2.2.1 hcond
      exact ⟨⟨by omega, by omega, by omega, by omega, hlen⟩, by omega⟩
    · obtain ⟨hdiff, hconf⟩ := hf.2.2.2 (by omega)
      exact ⟨⟨by omega, by omega, by omega, by omega, hlen⟩, by omega⟩
  | false =>
    have hfe : applyAnswer u false = applyIncorrect u := rfl
    rw [hfe]
    have hf := applyIncorrect_fields u
    have hm := applyIncorrect_misc u
    have hlen : (applyIncorrect u).1.recentResults.length ≤ 10 := by
      rw [hm.2, pushRecentResult_length, RECENT_RESULTS_MAX_LENGTH]
      omega
    have h1 := hf.1
    have h2 := hm.1
    by_cases hcond : max 0 (u.confidence - 2) ≤ 3
    · obtain ⟨hdiff, hconf⟩ := hf.2.2.1 hcond
      exact ⟨⟨by omega, by omega, by omega, by omega, hlen⟩, by omega⟩
    · obtain ⟨hdiff, hconf⟩ := hf.2.2.2 (by omega)
      exact ⟨⟨by omega, by omega, by omega, by omega, hlen⟩, by omega⟩

theorem answerUpdate_fieldsEq (u : UserState) (questionId : String) (correct : Bool) (now : ℕ) :
    FieldsEq (answerUpdate u questionId correct now).1 (applyAnswer u correct).1 :=
  ⟨rfl, rfl, rfl, rfl, rfl⟩

theorem inactivityDecay_fields (u : UserState) (now : ℕ) :
    (inactivityDecay u now).difficulty = u.difficulty ∧
    (inactivityDecay u now).maxStreak = u.maxStreak ∧
    (inactivityDecay u now).recentResults = u.recentResults ∧
    ((inactivityDecay u now).streak = u.streak ∨
      (inactivityDecay u now).streak = u.streak / 2) ∧
    ((inactivityDecay u now).confidence = u.confidence ∨
      (inactivityDecay u now).confidence = max 0 (u.confidence - 1)) := by
  simp only [inactivityDecay]
  split
  · split
    · exact ⟨rfl, rfl, rfl, Or.inr rfl, Or.inr rfl⟩
    · exact ⟨rfl, rfl, rfl, Or.inl rfl, Or.inl rfl⟩
  · exact ⟨rfl, rfl, rfl, Or.inl rfl, Or.inl rfl⟩

theorem inactivityDecay_inv (u : UserState) (now : ℕ) (h : StateInv u) :
    StateInv (inactivityDecay u now) ∧
    (inactivityDecay u now).maxStreak = max u.maxStreak (inactivityDecay u now).streak := by
  obtain ⟨hc, hd1, hd2, hsm, hrec⟩ := h
  obtain ⟨e1, e2, e3, e4, e5⟩ := inactivityDecay_fields u now
  rcases e4 with e4 | e4 <;> rcases e5 with e5 | e5 <;>
    exact ⟨⟨by omega, by omega, by omega, by omega, by rw [e3]; exact hrec⟩, by omega⟩

theorem nextQuestionUser_fieldsEq (catalog : List Question) (u : UserState) (now : ℕ)
    (rExact : Bool) (rIdx : ℕ) :
    FieldsEq (nextQuestionUser catalog u now rExact rIdx) (inactivityDecay u now) := by
  simp only [nextQuestionUser]
  split
  · exact ⟨rfl, rfl, rfl, rfl, rfl⟩
  · refine ⟨?_, ?_, ?_, ?_, ?_⟩ <;>
      (split <;> first | rfl | (split <;> rfl))

theorem applyOp_step (u : UserState) (op : EngineOp) (h : StateInv u) :
    StateInv (applyOp u op) ∧ (applyOp u op).maxStreak = max u.maxStreak (applyOp u op).streak := by
  cases op with
  | submit questionId correct now =>
    obtain ⟨hinv, heq⟩ := applyAnswer_inv u correct h
    have hfe := answerUpdate_fieldsEq u questionId correct now
    have ho : applyOp u (.submit questionId correct now) =
        (answerUpdate u questionId correct now).1 := rfl
    rw [ho]
    exact ⟨stateInv_congr _ _ hfe hinv, by rw [hfe.2.2.2.1, hfe.2.2.1]; exact heq⟩
  | next catalog now rExact rIdx =>
    obtain ⟨hinv, heq⟩ := inactivityDecay_inv u now h
    have hfe := nextQuestionUser_fieldsEq catalog u now rExact rIdx
    have ho : applyOp u (.next catalog now rExact rIdx) =
        nextQuestionUser catalog u now rExact rIdx := rfl
    rw [ho]
    exact ⟨stateInv_congr _ _ hfe hinv, by rw [hfe.2.2.2.1, hfe.2.2.1]; exact heq⟩

/-- C6: every operation sequence on the adaptive state (answer
processing and next-item selection with its inactivity decay) preserves
the invariants 0 ≤ confidence ≤ 10, 1 ≤ difficulty ≤ 10, streak ≤
maxStreak and window length ≤ 10; maxStreak never decreases and always
equals the maximum streak observed so far. -/
theorem adaptive_invariants_C6 (u : UserState) (ops : List EngineOp) (h : StateInv u) :
    StateInv (runOps u ops) ∧
    u.maxStreak ≤ (runOps u ops).maxStreak ∧
    (runOps u ops).maxStreak = (streakTrace u ops).foldl max u.maxStreak := by
  induction ops generalizing u with
  | nil => exact ⟨h, le_refl _, rfl⟩
  | cons op ops ih =>
    obtain ⟨hinv, heq⟩ := applyOp_step u op h
    obtain ⟨h1, h2, h3⟩ := ih (applyOp u op) hinv
    refine ⟨h1, ?_, ?_⟩
    · calc u.maxStreak ≤ max u.maxStreak (applyOp u op).streak := le_max_left _ _
        _ = (applyOp u op).maxStreak := heq.symm
        _ ≤ (runOps (applyOp u op) ops).maxStreak := h2
    · show (runOps (applyOp u op) ops).maxStreak =
        List.foldl max u.maxStreak ((applyOp u op).streak :: streakTrace (applyOp u op) ops)
      rw [List.foldl_cons, ← heq]
      exact h3

/-- C6 witness: a concrete three-operation run from the fresh state. -/
theorem adaptive_invariants_C6_witness :
    StateInv (runOps (initialUser "frank" 0)
      [.submit "q001" true 5, .next [q001] 5 true 0, .submit "q001" false 6]) ∧
    (initialUser "frank" 0).maxStreak ≤ (runOps (initialUser "frank" 0)
      [.submit "q001" true 5, .next [q001] 5 true 0, .submit "q001" false 6]).maxStreak ∧
    (runOps (initialUser "frank" 0)
      [.submit "q001" true 5, .next [q001] 5 true 0, .submit "q001" false 6]).maxStreak =
      (streakTrace (initialUser "frank" 0)
        [.submit "q001" true 5, .next [q001] 5 true 0, .submit "q001" false 6]).foldl
        max (initialUser "frank" 0).maxStreak :=
  adaptive_invariants_C6 (initialUser "frank" 0)
    [.submit "q001" true 5, .next [q001] 5 true 0, .submit "q001" false 6]
    ⟨by decide, by decide, by decide, by decide, by decide⟩

/-! ## Rate limiter results -/

theorem runRate_live (ts : List ℕ) :
    ∀ (ws : List (String × RateLimitWindow)) (uid : String) (k t0 : ℕ),
      findS ws uid = some ⟨k, t0⟩ → 1 ≤ k → k + ts.length ≤ MAX_REQUESTS →
      (∀ t ∈ ts, t - t0 < WINDOW_MS) →
      (∀ r ∈ (runRateAttempts ws uid ts).1, r.allowed = true) ∧
      findS (runRateAttempts ws uid ts).2 uid = some ⟨k + ts.length, t0⟩ := by
  induction ts with
  | nil =>
    intro ws uid k t0 hfind hk hcap hin
    exact ⟨by intro r hr; simp [runRateAttempts] at hr, by simpa using hfind⟩
  | cons t ts ih =>
    intro ws uid k t0 hfind hk hcap hin
    have hwin : ¬ t - t0 ≥ WINDOW_MS := by
      have := hin t (List.mem_cons_self t ts)
      omega
    have hcount : k < MAX_REQUESTS := by
      simp only [List.length_cons] at hcap
      omega
    have hstep : checkRateLimit ws uid t =
        ({ allowed := true, remaining := MAX_REQUESTS - (k + 1), retryAfter := 0 },
         setS ws uid { count := k + 1, windowStart := t0 }) := by
      simp only [checkRateLimit, hfind]
      rw [if_neg hwin, if_pos hcount]
    have hrec := ih (setS ws uid { count := k + 1, windowStart := t0 }) uid (k + 1) t0
      (findS_setS_self _ _ _) (by omega)
      (by simp only [List.length_cons] at hcap; omega)
      (fun x hx => hin x (List.mem_cons_of_mem t hx))
    have hrun : runRateAttempts ws uid (t :: ts) =
        ((checkRateLimit ws uid t).1 :: (runRateAttempts (checkRateLimit ws uid t).2 uid ts).1,
         (runRateAttempts (checkRateLimit ws uid t).2 uid ts).2) := rfl
    rw [hrun, hstep]
    refine ⟨?_, ?_⟩
    · intro r hr
      rcases List.mem_cons.mp hr with h | h
      · rw [h]
      · exact hrec.1 r h
    · simp only [List.length_cons]
      have harith : k + (ts.length + 1) = k + 1 + ts.length := by omega
      rw [harith]
      exact hrec.2

/-- C8: with a fresh window, 30 admission attempts inside one 60-second
window are all allowed, the 31st is rejected with a positive
retryAfterSeconds, and an attempt that finds an expired window is always
allowed and reinitializes the window with count 1 at the attempt time. -/
theorem rate_limiter_C8 :
    (∀ (ws : List (String × RateLimitWindow)) (uid : String) (t0 : ℕ) (mid : List ℕ)
       (tlast : ℕ),
      findS ws uid = none → mid.length = 29 → (∀ t ∈ mid, t - t0 < WINDOW_MS) →
      tlast - t0 < WINDOW_MS →
      (∀ r ∈ (runRateAttempts ws uid (t0 :: mid)).1, r.allowed = true) ∧
      (runRateAttempts ws uid (t0 :: mid)).1.length = 30 ∧
      (checkRateLimit (runRateAttempts ws uid (t0 :: mid)).2 uid tlast).1.allowed = false ∧
      0 < (checkRateLimit (runRateAttempts ws uid (t0 :: mid)).2 uid tlast).1.retryAfter) ∧
    (∀ (ws : List (String × RateLimitWindow)) (uid : String) (t : ℕ)
       (entry : RateLimitWindow),
      findS ws uid = some entry → t - entry.windowStart ≥ WINDOW_MS →
      (checkRateLimit ws uid t).1.allowed = true ∧
      findS (checkRateLimit ws uid t).2 uid = some ⟨1, t⟩) := by
  constructor
  · intro ws uid t0 mid tlast hnone hlen hin hlast
    have hstep0 : checkRateLimit ws uid t0 =
        ({ allowed := true, remaining := MAX_REQUESTS - 1, retryAfter := 0 },
         setS ws uid { count := 1, windowStart := t0 }) := by
      rw [checkRateLimit, hnone]
    have hfill := runRate_live mid (setS ws uid { count := 1, windowStart := t0 }) uid 1 t0
      (findS_setS_self _ _ _) (le_refl 1)
      (by rw [hlen, MAX_REQUESTS]) hin
    have hrun : runRateAttempts ws uid (t0 :: mid) =
        ((checkRateLimit ws uid t0).1 :: (runRateAttempts (checkRateLimit ws uid t0).2 uid mid).1,
         (runRateAttempts (checkRateLimit ws uid t0).2 uid mid).2) := rfl
    have hlenrun : ∀ (ws' : List (String × RateLimitWindow)) (ts : List ℕ),
        (runRateAttempts ws' uid ts).1.length = ts.length := by
      intro ws' ts
      induction ts generalizing ws' with
      | nil => rfl
      | cons a ts ih => simp only [runRateAttempts, List.length_cons, ih]
    refine ⟨?_, ?_, ?_, ?_⟩
    · intro r hr
      rw [hrun, hstep0] at hr
      rcases List.mem_cons.mp hr with h | h
      · rw [h]
      · exact hfill.1 r h
    · rw [hrun, List.length_cons, hlenrun]
      omega
    · rw [hrun, hstep0]
      simp only [checkRateLimit, hfill.2]
      rw [if_neg (by omega), if_neg (by rw [hlen, MAX_REQUESTS]; omega)]
    · rw [hrun, hstep0]
      simp only [checkRateLimit, hfill.2]
      rw [if_neg (by omega), if_neg (by rw [hlen, MAX_REQUESTS]; omega)]
      show 0 < (WINDOW_MS - (tlast - t0) + 999) / 1000
      rw [WINDOW_MS] at hlast ⊢
      omega
  · intro ws uid t entry hfind hexp
    simp only [checkRateLimit, hfind]
    rw [if_pos hexp]
    exact ⟨rfl, findS_setS_self _ _ _⟩

/-- C8 witness: 31 attempts at time 0 from an empty window table, and a
reinitialization right at window expiry. -/
theorem rate_limiter_C8_witness :
    ((∀ r ∈ (runRateAttempts [] "gina" (0 :: List.replicate 29 0)).1, r.allowed = true) ∧
     (runRateAttempts [] "gina" (0 :: List.replicate 29 0)).1.length = 30 ∧
     (checkRateLimit (runRateAttempts [] "gina" (0 :: List.replicate 29 0)).2 "gina"
        0).1.allowed = false ∧
     0 < (checkRateLimit (runRateAttempts [] "gina" (0 :: List.replicate 29 0)).2 "gina"
        0).1.retryAfter) ∧
    ((checkRateLimit [("gina", ⟨30, 0⟩)] "gina" 60000).1.allowed = true ∧
     findS (checkRateLimit [("gina", ⟨30, 0⟩)] "gina" 60000).2 "gina" = some ⟨1, 60000⟩) :=
  ⟨rate_limiter_C8.1 [] "gina" 0 (List.replicate 29 0) 0 rfl (by decide)
      (by intro t ht; simp [List.eq_of_mem_replicate ht, WINDOW_MS]) (by decide),
   rate_limiter_C8.2 [("gina", ⟨30, 0⟩)] "gina" 60000 ⟨30, 0⟩ rfl (by decide)⟩

/-! ## Validation errors (C7) -/

/-- C7: an answer submission naming a question id absent from the
catalog yields the not-found error, and a selected index outside the
choice range yields the invalid-index error; in both cases the whole
world (user states, idempotency cache, rate windows) is untouched. -/
theorem validation_errors_C7 (catalog : List Question) (w : World)
    (userId questionId idempotencyKey : String) (stateVersion : Option ℕ)
    (selectedIndex : ℤ) (now : ℕ) :
    (0 ≤ selectedIndex → getQuestionById catalog questionId = none →
      POSTanswerV1 catalog w userId questionId selectedIndex idempotencyKey stateVersion now =
        (.notFound questionId, w)) ∧
    (∀ q, getQuestionById catalog questionId = some q →
      (selectedIndex < 0 ∨ (q.choices.length : ℤ) ≤ selectedIndex) →
      POSTanswerV1 catalog w userId questionId selectedIndex idempotencyKey stateVersion now =
        (.invalidIndex selectedIndex, w)) := by
  constructor
  · intro hnn hq
    rw [POSTanswerV1, if_neg (by omega), hq]
  · intro q hq hrange
    rcases hrange with hneg | hlen
    · rw [POSTanswerV1, if_pos hneg]
    · have h0 : ¬ selectedIndex < 0 := by omega
      simp only [POSTanswerV1, hq]
      rw [if_neg h0, if_pos hlen]

/-- C7 witness: an unknown question id and an out-of-range index against
the singleton catalog, both leaving the empty world unchanged. -/
theorem validation_errors_C7_witness :
    (POSTanswerV1 [q001] ⟨[], [], []⟩ "hana" "q999" 1 "key7" none 0 =
      (.notFound "q999", ⟨[], [], []⟩)) ∧
    (POSTanswerV1 [q001] ⟨[], [], []⟩ "hana" "q001" 4 "key7" none 0 =
      (.invalidIndex 4, ⟨[], [], []⟩)) :=
  ⟨(validation_errors_C7 [q001] ⟨[], [], []⟩ "hana" "q999" "key7" none 1 0).1
      (by decide) rfl,
   (validation_errors_C7 [q001] ⟨[], [], []⟩ "hana" "q001" "key7" none 4 0).2
      q001 rfl (Or.inr (by decide))⟩

/-! ## Inactivity decay (C9) -/

/-- A user who has been inactive past the threshold with a positive
streak, version 7. -/
def inactiveUser : UserState :=
  { initialUser "bob" 1 with
    streak := 4
    maxStreak := 4
    confidence := 5
    stateVersion := 7
    lastAnswerAt := 1 }

/-- A user inactive past the threshold whose streak is already 0. -/
def inactiveZeroStreakUser : UserState :=
  { initialUser "cara" 1 with
    streak := 0
    confidence := 5
    stateVersion := 3
    lastAnswerAt := 1 }

/-- C9 counterexample: the decay fires (streak 4 is halved to 2) but the
stored state keeps stateVersion 7 — the decay write does not commit a
version update; and with streak 0 the confidence is not decremented
(stays 5), because the whole decay body is guarded by streak > 0. -/
theorem inactivity_decay_C9_counterexample :
    ((findS (getNextQuestionW [q001] [("bob", inactiveUser)] "bob" 1800002 true 0).2
        "bob").map (fun u => (u.streak, u.stateVersion)) = some (2, 7) ∧
     ¬ (findS (getNextQuestionW [q001] [("bob", inactiveUser)] "bob" 1800002 true 0).2
        "bob").map (fun u => u.stateVersion) = some 8) ∧
    ((findS (getNextQuestionW [q001] [("cara", inactiveZeroStreakUser)] "cara" 1800002 true 0).2
        "cara").map (fun u => u.confidence) = some 5 ∧
     ¬ (findS (getNextQuestionW [q001] [("cara", inactiveZeroStreakUser)] "cara" 1800002 true 0).2
        "cara").map (fun u => u.confidence) = some 4) := by
  refine ⟨⟨?_, ?_⟩, ?_, ?_⟩ <;> decide

/-- The user landed in the store by getNextQuestionW is exactly the
per-user composite nextQuestionUser applied to the loaded state. -/
theorem getNextQuestionW_findS (catalog : List Question)
    (users : List (String × UserState)) (userId : String) (now : ℕ)
    (rExact : Bool) (rIdx : ℕ) :
    findS (getNextQuestionW catalog users userId now rExact rIdx).2 userId =
      some (nextQuestionUser catalog (getOrCreateUserW users userId now).1 now rExact rIdx) := by
  have hgc : findS (getOrCreateUserW users userId now).2 userId =
      some (getOrCreateUserW users userId now).1 := by
    rw [getOrCreateUserW]
    cases hfind : findS users userId with
    | none =>
      simp only
      exact findS_setS_self _ _ _
    | some v =>
      simp only
      exact hfind
  simp only [getNextQuestionW, nextQuestionUser]
  split
  · by_cases hdec : decayFires (getOrCreateUserW users userId now).1 now
    · rw [if_pos hdec]
      exact findS_setS_self _ _ _
    · rw [if_neg hdec]
      have heq : inactivityDecay (getOrCreateUserW users userId now).1 now =
          (getOrCreateUserW users userId now).1 := by
        rw [inactivityDecay, if_neg hdec]
      rw [heq]
      exact hgc
  · exact findS_setS_self _ _ _

/-- Next-item selection leaves the optimistic version and the refreshed
activity timestamp of the decayed state untouched. -/
theorem nextQuestionUser_bookkeeping (catalog : List Question) (u : UserState) (now : ℕ)
    (rExact : Bool) (rIdx : ℕ) :
    (nextQuestionUser catalog u now rExact rIdx).stateVersion =
      (inactivityDecay u now).stateVersion ∧
    (nextQuestionUser catalog u now rExact rIdx).lastAnswerAt =
      (inactivityDecay u now).lastAnswerAt := by
  simp only [nextQuestionUser]
  split
  · exact ⟨rfl, rfl⟩
  · constructor <;> (split <;> first | rfl | (split <;> rfl))

/-- C9 (amended): when more than 30 minutes have elapsed since a nonzero
lastAnswerAt and the streak is positive, next-item selection first halves
the streak (integer floor) and decrements confidence by one (floored at
0) before selecting, refreshing lastAnswerAt; the decay is persisted by a
plain save that leaves the state version unchanged. -/
theorem inactivity_decay_C9 (catalog : List Question)
    (users : List (String × UserState)) (userId : String) (now : ℕ)
    (rExact : Bool) (rIdx : ℕ) (u : UserState)
    (hu : findS users userId = some u) (hl : u.lastAnswerAt ≠ 0)
    (ht : now - u.lastAnswerAt > INACTIVITY_THRESHOLD_MS) (hs : 0 < u.streak) :
    ∃ u', findS (getNextQuestionW catalog users userId now rExact rIdx).2 userId = some u' ∧
      u'.streak = u.streak / 2 ∧
      u'.confidence = max 0 (u.confidence - 1) ∧
      u'.stateVersion = u.stateVersion ∧
      u'.lastAnswerAt = now := by
  have hd : decayFires u now := ⟨hl, ht⟩
  have hdec : inactivityDecay u now =
      { u with streak := u.streak / 2, confidence := max 0 (u.confidence - 1),
               lastAnswerAt := now } := by
    rw [inactivityDecay, if_pos hd, if_pos hs]
  have hg : (getOrCreateUserW users userId now).1 = u := by
    simp only [getOrCreateUserW, hu]
  have hfe := nextQuestionUser_fieldsEq catalog u now rExact rIdx
  have hbk := nextQuestionUser_bookkeeping catalog u now rExact rIdx
  refine ⟨nextQuestionUser catalog u now rExact rIdx, ?_, ?_, ?_, ?_, ?_⟩
  · rw [getNextQuestionW_findS, hg]
  · rw [hfe.2.2.1, hdec]
  · rw [hfe.1, hdec]
  · rw [hbk.1, hdec]
  · rw [hbk.2, hdec]

/-- C9 witness: the inactive user with streak 4 at version 7 is decayed
to streak 2, confidence 4, version 7, with lastAnswerAt refreshed. -/
theorem inactivity_decay_C9_witness :
    ∃ u', findS (getNextQuestionW [q001] [("ivan", inactiveUser)] "ivan" 1800002 false 1).2
        "ivan" = some u' ∧
      u'.streak = inactiveUser.streak / 2 ∧
      u'.confidence = max 0 (inactiveUser.confidence - 1) ∧
      u'.stateVersion = inactiveUser.stateVersion ∧
      u'.lastAnswerAt = 1800002 :=
  inactivity_decay_C9 [q001] [("ivan", inactiveUser)] "ivan" 1800002 false 1 inactiveUser
    rfl (by decide) (by decide) (by decide)

/-! ## Verdict equivalence of the two processAnswer revisions (C10) -/

set_option maxRecDepth 10000 in
theorem hashCorrectIndex_inj_small :
    ∀ a < 4, ∀ b < 4, ((hashCorrectIndex a = hashCorrectIndex b) ↔ a = b) := by decide

/-- C10: for a catalog question whose stored hash is the hash of its
correct index (as every bank entry is built), whose correct index is in
range, and whose arity is at most 4 (the bank's fixed arity), the hash
comparison of the async revision and the index comparison of the sync
revision agree on every valid selected index. -/
theorem verdict_equivalence_C10 (q : Question) (selectedIndex : ℤ)
    (hhash : q.correctAnswerHash = hashCorrectIndex q.correctIndex)
    (hci : q.correctIndex < q.choices.length)
    (harity : q.choices.length ≤ 4)
    (h0 : 0 ≤ selectedIndex) (hlt : selectedIndex < (q.choices.length : ℤ)) :
    verdictAsync q selectedIndex = verdictSync q selectedIndex := by
  have ha : selectedIndex.toNat < 4 := by omega
  have hb : q.correctIndex < 4 := by omega
  have hinj := hashCorrectIndex_inj_small selectedIndex.toNat ha q.correctIndex hb
  have hiff : (selectedIndex = (q.correctIndex : ℤ)) ↔
      (selectedIndex.toNat = q.correctIndex) := by omega
  rw [verdictSync, verdictAsync, hhash]
  exact decide_eq_decide.mpr (hinj.trans hiff.symm)

set_option maxRecDepth 10000 in
/-- C10 witness: both verdicts evaluated on question q001 and the
selected index 1. -/
theorem verdict_equivalence_C10_witness :
    verdictAsync q001 1 = verdictSync q001 1 :=
  verdict_equivalence_C10 q001 1 rfl (by decide) (by decide) (by decide) (by decide)

/-! ## Idempotent replay (C4) -/

theorem findS_filter_keep {α : Type} (m : List (String × α)) (p : String × α → Bool)
    (k : String) (v : α) (hf : findS m k = some v) (hp : p (k, v) = true) :
    findS (m.filter p) k = some v := by
  induction m with
  | nil => simp [findS] at hf
  | cons e m ih =>
    obtain ⟨ek, ev⟩ := e
    by_cases hek : ek = k
    · subst hek
      rw [findS, if_pos rfl] at hf
      injection hf with hf
      subst hf
      rw [List.filter_cons, if_pos hp, findS, if_pos rfl]
    · rw [findS, if_neg hek] at hf
      rw [List.filter_cons]
      split
      · rw [findS, if_neg hek]
        exact ih hf
      · exact ih hf

/-- C4: submitting the same identity, question, index and idempotency
key twice through the answer route, with a fresh rate window and a fresh
key, and with the second call inside both the rate window and the
idempotency retention window, processes the answer exactly once: the
first call returns the freshly computed body with idempotent false, the
second call returns the same body with idempotent true, and the replay
leaves the user store and the idempotency cache exactly as the first
call left them (only the rate counter advances). -/
theorem idempotent_replay_C4 (catalog : List Question) (w : World)
    (userId questionId idempotencyKey : String) (selectedIndex : ℤ) (t1 t2 : ℕ)
    (q : Question)
    (hrate : findS w.rate userId = none)
    (hidem : findS w.idem idempotencyKey = none)
    (hq : getQuestionById catalog questionId = some q)
    (h0 : 0 ≤ selectedIndex) (hlt : selectedIndex < (q.choices.length : ℤ))
    (hts : t1 ≤ t2) (hwin : t2 - t1 < WINDOW_MS) (httl : t2 - t1 ≤ IDEMPOTENCY_TTL_MS) :
    ∃ body users',
      processAnswerSync catalog w.users userId questionId selectedIndex t1 =
        .ok (body, users') ∧
      POSTanswer catalog w userId questionId selectedIndex idempotencyKey t1 =
        (.ok body false (MAX_REQUESTS - 1),
         ⟨users', recordIdempotency w.idem idempotencyKey body t1,
          setS w.rate userId ⟨1, t1⟩⟩) ∧
      POSTanswer catalog
          (POSTanswer catalog w userId questionId selectedIndex idempotencyKey t1).2
          userId questionId selectedIndex idempotencyKey t2 =
        (.ok body true (MAX_REQUESTS - (1 + 1)),
         ⟨users', recordIdempotency w.idem idempotencyKey body t1,
          setS (setS w.rate userId ⟨1, t1⟩) userId ⟨1 + 1, t1⟩⟩) := by
  have hrange : ¬ (selectedIndex < 0 ∨ (q.choices.length : ℤ) ≤ selectedIndex) := by omega
  have hnn : ¬ selectedIndex < 0 := by omega
  have hnl : ¬ (q.choices.length : ℤ) ≤ selectedIndex := by omega
  obtain ⟨body, users', hproc⟩ :
      ∃ b us, processAnswerSync catalog w.users userId questionId selectedIndex t1 =
        .ok (b, us) := by
    simp only [processAnswerSync, hq, if_neg hrange]
    exact ⟨_, _, rfl⟩
  have hrl1 : checkRateLimit w.rate userId t1 =
      ({ allowed := true, remaining := MAX_REQUESTS - 1, retryAfter := 0 },
       setS w.rate userId ⟨1, t1⟩) := by
    simp only [checkRateLimit, hrate]
  have hci1 : checkIdempotency w.idem idempotencyKey t1 = (none, w.idem) := by
    simp only [checkIdempotency, hidem]
  have hcall1 : POSTanswer catalog w userId questionId selectedIndex idempotencyKey t1 =
      (.ok body false (MAX_REQUESTS - 1),
       ⟨users', recordIdempotency w.idem idempotencyKey body t1,
        setS w.rate userId ⟨1, t1⟩⟩) := by
    simp only [POSTanswer, if_neg hnn, hq, if_neg hnl, hrl1, hci1, hproc]
    rfl
  refine ⟨body, users', hproc, hcall1, ?_⟩
  rw [hcall1]
  have hfidem : findS (recordIdempotency w.idem idempotencyKey body t1) idempotencyKey =
      some (body, t1) := by
    rw [recordIdempotency, cleanupExpiredIdempotencyKeys]
    exact findS_filter_keep _ _ _ _ (findS_setS_self _ _ _) (by simp)
  have hrl2 : checkRateLimit (setS w.rate userId ⟨1, t1⟩) userId t2 =
      ({ allowed := true, remaining := MAX_REQUESTS - (1 + 1), retryAfter := 0 },
       setS (setS w.rate userId ⟨1, t1⟩) userId ⟨1 + 1, t1⟩) := by
    simp only [checkRateLimit, findS_setS_self]
    rw [if_neg (by omega), if_pos (by rw [MAX_REQUESTS]; omega)]
  have hci2 : checkIdempotency (recordIdempotency w.idem idempotencyKey body t1)
      idempotencyKey t2 = (some body, recordIdempotency w.idem idempotencyKey body t1) := by
    simp only [checkIdempotency, hfidem]
    rw [if_neg (by omega)]
  simp only [POSTanswer, if_neg hnn, hq, if_neg hnl, hrl2, hci2]
  rfl

/-- A world with no users, no cached keys and no rate windows. -/
def emptyWorld : World := ⟨[], [], []⟩

/-- C4 witness: the double submission against the empty world at times 0
and 1000 with the singleton catalog. -/
theorem idempotent_replay_C4_witness :
    ∃ body users',
      processAnswerSync [q001] emptyWorld.users "kira" "q001" 1 0 = .ok (body, users') ∧
      POSTanswer [q001] emptyWorld "kira" "q001" 1 "key-k" 0 =
        (.ok body false (MAX_REQUESTS - 1),
         ⟨users', recordIdempotency emptyWorld.idem "key-k" body 0,
          setS emptyWorld.rate "kira" ⟨1, 0⟩⟩) ∧
      POSTanswer [q001] (POSTanswer [q001] emptyWorld "kira" "q001" 1 "key-k" 0).2
          "kira" "q001" 1 "key-k" 1000 =
        (.ok body true (MAX_REQUESTS - (1 + 1)),
         ⟨users', recordIdempotency emptyWorld.idem "key-k" body 0,
          setS (setS emptyWorld.rate "kira" ⟨1, 0⟩) "kira" ⟨1 + 1, 0⟩⟩) :=
  idempotent_replay_C4 [q001] emptyWorld "kira" "q001" "key-k" 1 0 1000 q001
    rfl rfl rfl (by decide) (by decide) (by decide) (by decide) (by decide)

/-! ## Version monotonicity (C5) -/

theorem applyAnswer_stateVersion (u : UserState) (correct : Bool) :
    (applyAnswer u correct).1.stateVersion = u.stateVersion := by
  cases correct with
  | true =>
    show (applyCorrect u).1.stateVersion = u.stateVersion
    simp only [applyCorrect]
    split <;> rfl
  | false =>
    show (applyIncorrect u).1.stateVersion = u.stateVersion
    simp only [applyIncorrect]
    split <;> rfl

theorem answerUpdate_version (u : UserState) (questionId : String) (correct : Bool)
    (now : ℕ) :
    (answerUpdate u questionId correct now).1.stateVersion = u.stateVersion + 1 := by
  show (markQuestionAnswered (applyAnswer u correct).1 questionId).stateVersion + 1 =
    u.stateVersion + 1
  rw [markQuestionAnswered]
  rw [applyAnswer_stateVersion]

/-- The version loaded by getOrCreateUserW: the stored one, or 0 for a
fresh identity. -/
def loadedVersion (users : List (String × UserState)) (userId : String) : ℕ :=
  match findS users userId with
  | some u => u.stateVersion
  | none => 0

theorem getOrCreateUserW_version (users : List (String × UserState)) (userId : String)
    (now : ℕ) :
    (getOrCreateUserW users userId now).1.stateVersion = loadedVersion users userId := by
  rw [getOrCreateUserW, loadedVersion]
  cases findS users userId <;> rfl

theorem processAnswerAsy_ok_version (catalog : List Question)
    (users : List (String × UserState)) (userId questionId : String)
    (selectedIndex : ℤ) (now : ℕ) (response : AnswerResponse)
    (users' : List (String × UserState))
    (h : processAnswerAsy catalog users userId questionId selectedIndex now =
      .ok (response, users')) :
    ∃ u', findS users' userId = some u' ∧
      u'.stateVersion = loadedVersion users userId + 1 := by
  rw [processAnswerAsy] at h
  split at h
  · exact absurd h (by simp)
  · split at h
    · exact absurd h (by simp)
    · injection h with h
      injection h with h1 h2
      subst h2
      exact ⟨_, findS_setS_self _ _ _,
        by rw [answerUpdate_version, getOrCreateUserW_version]⟩

theorem POSTanswerV1_users_cases (catalog : List Question) (w : World)
    (userId questionId idempotencyKey : String) (selectedIndex : ℤ)
    (stateVersion : Option ℕ) (now : ℕ) :
    (POSTanswerV1 catalog w userId questionId selectedIndex idempotencyKey stateVersion
        now).2.users = w.users ∨
    ∃ response users',
      processAnswerAsy catalog w.users userId questionId selectedIndex now =
        .ok (response, users') ∧
      (POSTanswerV1 catalog w userId questionId selectedIndex idempotencyKey stateVersion
        now).2.users = users' := by
  simp only [POSTanswerV1]
  repeat' split
  all_goals try exact Or.inl rfl
  all_goals (rename_i response users heq; exact Or.inr ⟨response, users, heq, rfl⟩)

theorem POSTanswerV1_ok_false (catalog : List Question) (w : World)
    (userId questionId idempotencyKey : String) (selectedIndex : ℤ)
    (stateVersion : Option ℕ) (now : ℕ) (body : AnswerResponse) (remaining : ℕ)
    (w' : World)
    (h : POSTanswerV1 catalog w userId questionId selectedIndex idempotencyKey stateVersion
        now = (.ok body false remaining, w')) :
    ∃ users',
      processAnswerAsy catalog w.users userId questionId selectedIndex now =
        .ok (body, users') ∧
      w'.users = users' := by
  simp only [POSTanswerV1] at h
  repeat' split at h
  all_goals injection h with h1 h2
  all_goals cases h1
  all_goals subst h2
  all_goals exact ⟨_, by assumption, rfl⟩

/-- C5: a fresh (non-replayed) successful submission through the v1
route stores a user whose version is exactly the loaded version plus
one; across any outcome of the route the stored version never decreases;
and a submission carrying a stale expectedVersion (with the question
valid, the rate limiter passing and no cached replay) fails with a
version conflict reporting the current version and leaves the user store
untouched. -/
theorem version_monotonicity_C5 (catalog : List Question) (w : World)
    (userId questionId idempotencyKey : String) (selectedIndex : ℤ)
    (stateVersion : Option ℕ) (now : ℕ) :
    (∀ body remaining w',
      POSTanswerV1 catalog w userId questionId selectedIndex idempotencyKey stateVersion
        now = (.ok body false remaining, w') →
      ∃ u', findS w'.users userId = some u' ∧
        u'.stateVersion = loadedVersion w.users userId + 1) ∧
    (∀ u u', findS w.users userId = some u →
      findS (POSTanswerV1 catalog w userId questionId selectedIndex idempotencyKey
        stateVersion now).2.users userId = some u' →
      u.stateVersion ≤ u'.stateVersion) ∧
    (∀ q u v, getQuestionById catalog questionId = some q →
      ¬ selectedIndex < 0 → selectedIndex < (q.choices.length : ℤ) →
      (checkRateLimit w.rate userId now).1.allowed = true →
      (checkIdempotency w.idem idempotencyKey now).1 = none →
      findS w.users userId = some u → stateVersion = some v → v ≠ u.stateVersion →
      POSTanswerV1 catalog w userId questionId selectedIndex idempotencyKey stateVersion
          now =
        (.versionConflict u.stateVersion,
         ⟨w.users, (checkIdempotency w.idem idempotencyKey now).2,
          (checkRateLimit w.rate userId now).2⟩)) := by
  refine ⟨?_, ?_, ?_⟩
  · intro body remaining w' h
    obtain ⟨users', hok, hw⟩ :=
      POSTanswerV1_ok_false catalog w userId questionId idempotencyKey selectedIndex
        stateVersion now body remaining w' h
    obtain ⟨u', hf, hv⟩ :=
      processAnswerAsy_ok_version catalog w.users userId questionId selectedIndex now
        body users' hok
    exact ⟨u', by rw [hw]; exact hf, hv⟩
  · intro u u' hu hu'
    rcases POSTanswerV1_users_cases catalog w userId questionId idempotencyKey
        selectedIndex stateVersion now with hcase | ⟨response, users', hok, hcase⟩
    · rw [hcase, hu] at hu'
      injection hu' with hu'
      rw [← hu']
    · rw [hcase] at hu'
      obtain ⟨u'', hf, hv⟩ :=
        processAnswerAsy_ok_version catalog w.users userId questionId selectedIndex now
          response users' hok
      rw [hf] at hu'
      injection hu' with hu'
      rw [← hu', hv]
      simp only [loadedVersion, hu]
      omega
  · intro q u v hq hnn hlt hallow hmiss hu hsv hne
    subst hsv
    have hnl : ¬ (q.choices.length : ℤ) ≤ selectedIndex := by omega
    simp only [POSTanswerV1, if_neg hnn, hq, if_neg hnl, hallow, Bool.not_true, hmiss, hu,
      if_pos (Ne.symm hne)]
    rfl

/-- The response computed by the first submission of the C5 witness run
(an incorrect answer: index 0 against correct index 1). -/
def c5Body : AnswerResponse :=
  { correct := false
    correctIndex := 1
    scoreDelta := 0
    userState :=
      { difficulty := 1, streak := 0, maxStreak := 0, totalScore := 0, confidence := 5 }
    stateVersion := some 1 }

/-- The user stored by the first submission of the C5 witness run. -/
def c5User : UserState :=
  { userId := "lena"
    difficulty := 1
    streak := 0
    maxStreak := 0
    totalScore := 0
    confidence := 5
    lastQuestionId := some "q001"
    answeredIds := ["q001"]
    recentResults := [false]
    createdAt := 0
    stateVersion := 1
    lastAnswerAt := 0 }

/-- The world after the first submission of the C5 witness run. -/
def c5World : World :=
  ⟨[("lena", c5User)], [("key-l", (c5Body, 0))], [("lena", ⟨1, 0⟩)]⟩

set_option maxRecDepth 10000 in
/-- C5 witness: a concrete fresh submission bumps the stored version
from 0 to 1; a replay leaves it at 1; and a stale expectedVersion of 0
against stored version 1 yields the version conflict with the store
untouched. -/
theorem version_monotonicity_C5_witness :
    (∃ u', findS c5World.users "lena" = some u' ∧
      u'.stateVersion = loadedVersion emptyWorld.users "lena" + 1) ∧
    c5User.stateVersion ≤ c5User.stateVersion ∧
    POSTanswerV1 [q001] c5World "lena" "q001" 0 "key-m" (some 0) 1000 =
      (.versionConflict c5User.stateVersion,
       ⟨c5World.users, (checkIdempotency c5World.idem "key-m" 1000).2,
        (checkRateLimit c5World.rate "lena" 1000).2⟩) :=
  ⟨(version_monotonicity_C5 [q001] emptyWorld "lena" "q001" "key-l" 0 none 0).1
      c5Body 29 c5World (by decide),
   (version_monotonicity_C5 [q001] c5World "lena" "q001" "key-l" 0 none 1000).2.1
      c5User c5User (by decide) (by decide),
   (version_monotonicity_C5 [q001] c5World "lena" "q001" "key-m" 0 (some 0) 1000).2.2
      q001 c5User 0 rfl (by decide) (by decide) (by decide) (by decide) (by decide)
      rfl (by decide)⟩

end BrainBolt
